import Mathlib

/-!
Verification of the optimistic ordered-resource synchronization engine of the
Nexus-Cars marketplace UI.

The definitions below are a shallow embedding of the TypeScript source:

* the optimistic image uploader (`ListingImageUploader`, the variant with
  optimistic cache updates and two-phase DB renormalization): `sortByPosition`,
  `normalizePositions`, the remote write protocols of its four mutations
  (upload, delete, pairwise reorder, set-cover) and their `onMutate`/`onError`
  cache handlers;
* the plain uploader variant at
  `src/features/listings/components/ListingImageUploader.tsx`, whose delete
  issues no renumbering (`deleteMutationFnStoreNoRenumber`);
* the listing form's save-flow renumbering
  (`ListingForm.tsx` / `updateImagePositions`): `formPositionWrites`;
* the favorites toggle of `ListingsPage.tsx`: `toggleSet`, `toggleOnMutate`,
  `toggleOnError`, `toggleMutationFnCall`.

The remote ordered store for one parent (listing) is modelled as a
`List ExistingImage` (the rows of `listing_images` for that `listing_id`);
`update ... set position = p where id = i` and `delete ... where id = i`
become total functions on that list (a Supabase delete matching zero rows
returns no error, so remote operations are total here; failures of multi-step
protocols are injected explicitly by `runImageMutation`). JavaScript numbers
used as positions are modelled as `Int` (the reorder sentinel is -999999).
`Array.prototype.sort` with comparator `a.position - b.position` is a stable
ascending sort (ES2019); `sortByPosition` implements it as a stable insertion
sort, which is extensionally the same function.
-/

namespace NexusCars

/-- One row of `listing_images` (type `ExistingImage` in the source). -/
structure ExistingImage where
  id : String
  bucket : String
  path : String
  position : Int
  deriving DecidableEq, Repr

/-- Stable insertion of a row into a position-sorted list: the new row goes
before every row whose position is not strictly smaller, so rows with equal
positions keep their original relative order when `sortByPosition` folds from
the right. -/
def insertByPos (r : ExistingImage) : List ExistingImage → List ExistingImage
  | [] => [r]
  | x :: xs => if x.position < r.position then x :: insertByPos r xs else r :: x :: xs

/-- `sortByPosition` of the source: stable ascending sort by `position`
(`[...images].sort((a, b) => a.position - b.position)`). -/
def sortByPosition (images : List ExistingImage) : List ExistingImage :=
  images.foldr insertByPos []

/-- Indexed renumbering starting at `k`: the `.map((img, idx) => ({ ...img,
position: idx }))` step of `normalizePositions`, generalised to an arbitrary
starting index. -/
def renumberFrom : Nat → List ExistingImage → List ExistingImage
  | _, [] => []
  | k, r :: rs => { r with position := (k : Int) } :: renumberFrom (k + 1) rs

/-- `normalizePositions` of the source: sort by current position, then assign
positions `0..n-1` in that order. -/
def normalizePositions (images : List ExistingImage) : List ExistingImage :=
  renumberFrom 0 (sortByPosition images)

/-- Remote `update({ position: p }).eq("id", imgId)` on one parent's rows. -/
def remoteUpdatePosition (store : List ExistingImage) (imgId : String) (p : Int) :
    List ExistingImage :=
  store.map fun r => if r.id = imgId then { r with position := p } else r

/-- Remote `delete().eq("id", imgId)`; matching zero rows is not an error. -/
def remoteDeleteRow (store : List ExistingImage) (imgId : String) : List ExistingImage :=
  store.filter fun r => r.id ≠ imgId

/-- Remote `select ... order("position", { ascending: true })`. -/
def fetchSortedRows (store : List ExistingImage) : List ExistingImage :=
  sortByPosition store

/-- One remote position write: the row id and the position written. -/
abbrev PosWrite := String × Int

def applyWrite (store : List ExistingImage) (w : PosWrite) : List ExistingImage :=
  remoteUpdatePosition store w.1 w.2

def applyWrites (store : List ExistingImage) (ws : List PosWrite) : List ExistingImage :=
  ws.foldl applyWrite store

/-- The position each row ends at after a write sequence: fold the writes,
keeping the last one whose id matches. -/
def assignFold (p : Int) (rid : String) (ws : List PosWrite) : Int :=
  ws.foldl (fun acc w => if rid = w.1 then w.2 else acc) p

/-- The writes of one `for` loop `update({ position: f i }).eq("id", rows[i].id)`,
with `i` starting at `k`. -/
def phaseWrites (f : Nat → Int) : Nat → List ExistingImage → List PosWrite
  | _, [] => []
  | k, r :: rs => (r.id, f k) :: phaseWrites f (k + 1) rs

/-- The two-phase renormalization write sequence of the optimistic uploader:
phase 1 writes `1000 + i`, phase 2 writes `i`, both over `rows` in order. -/
def twoPhaseWrites (rows : List ExistingImage) : List PosWrite :=
  phaseWrites (fun i => 1000 + (i : Int)) 0 rows ++ phaseWrites (fun i => (i : Int)) 0 rows

/-- The position writes issued by the optimistic uploader's `deleteMutation`
after the row is deleted: a fresh position-ordered read, then two-phase
renormalization. -/
def deleteWrites (store : List ExistingImage) (imgId : String) : List PosWrite :=
  twoPhaseWrites (fetchSortedRows (remoteDeleteRow store imgId))

/-- Remote effect of the optimistic uploader's `deleteMutation.mutationFn`:
delete the row, re-read the remaining rows ordered by position, renumber them
in two phases. -/
def deleteMutationFnStore (store : List ExistingImage) (imgId : String) :
    List ExistingImage :=
  applyWrites (remoteDeleteRow store imgId) (deleteWrites store imgId)

/-- Remote effect of `deleteMutation.mutationFn` in the plain uploader variant
(`components/ListingImageUploader.tsx`): the row is deleted and no renumbering
is issued. -/
def deleteMutationFnStoreNoRenumber (store : List ExistingImage) (imgId : String) :
    List ExistingImage :=
  remoteDeleteRow store imgId

/-- The three writes of `reorderMutation.mutationFn`:
`a := -999999`, `b := a.position`, `a := b.position`. -/
def swapWrites (a b : ExistingImage) : List PosWrite :=
  [(a.id, -999999), (b.id, a.position), (a.id, b.position)]

/-- Remote effect of `reorderMutation.mutationFn`. -/
def reorderMutationFnStore (store : List ExistingImage) (a b : ExistingImage) :
    List ExistingImage :=
  applyWrites store (swapWrites a b)

/-- The reordered row list built by `setCoverMutation.mutationFn`: the fresh
position-ordered read, the target moved to the front
(`[rows[idx], ...rows.filter((_, i) => i !== idx)]`). `none` when
`idx <= 0` (target already first, or `findIndex` returned -1): the mutation
returns without issuing any write. -/
def setCoverRows (store : List ExistingImage) (imgId : String) :
    Option (List ExistingImage) :=
  match (fetchSortedRows store).findIdx? (fun r => r.id = imgId) with
  | none => none
  | some idx =>
    if idx = 0 then none
    else
      match (fetchSortedRows store)[idx]? with
      | none => none
      | some target => some (target :: (fetchSortedRows store).eraseIdx idx)

/-- The position writes issued by `setCoverMutation.mutationFn`: two-phase
renormalization over the reordered rows, or nothing on the early return. -/
def setCoverWrites (store : List ExistingImage) (imgId : String) : List PosWrite :=
  match setCoverRows store imgId with
  | none => []
  | some reordered => twoPhaseWrites reordered

/-- Remote effect of `setCoverMutation.mutationFn`. -/
def setCoverMutationFnStore (store : List ExistingImage) (imgId : String) :
    List ExistingImage :=
  applyWrites store (setCoverWrites store imgId)

/-- `startPos` of `uploadMutation.mutationFn`:
`existingSorted.length > 0 ? Math.max(...existingSorted.map(p)) + 1 : 0`. -/
def uploadStartPos (existingSorted : List ExistingImage) : Int :=
  match existingSorted with
  | [] => 0
  | r :: rs => (rs.map fun x => x.position).foldl max r.position + 1

/-- The inserted rows of an upload: the `i`-th new row gets position `p + i`. -/
def insertRowsFrom (p : Int) : List ExistingImage → List ExistingImage
  | [] => []
  | r :: rs => { r with position := p } :: insertRowsFrom (p + 1) rs

/-- Remote effect of `uploadMutation.mutationFn`: the new rows (ids, bucket and
path are assigned outside the core and are opaque here) are inserted at
positions `startPos + i` computed from the sorted existing rows. -/
def uploadMutationFnStore (store : List ExistingImage) (newItems : List ExistingImage) :
    List ExistingImage :=
  store ++ insertRowsFrom (uploadStartPos (sortByPosition store)) newItems

/-- `deleteMutation.onMutate`: optimistically remove the row from the cached
list and renormalize positions. -/
def deleteOnMutate (prev : List ExistingImage) (imgId : String) : List ExistingImage :=
  normalizePositions (prev.filter fun x => x.id ≠ imgId)

/-- `reorderMutation.onMutate`: swap the two rows' positions in the cached list
and re-sort it. -/
def reorderOnMutate (prev : List ExistingImage) (a b : ExistingImage) :
    List ExistingImage :=
  sortByPosition (prev.map fun img =>
    if img.id = a.id then { img with position := b.position }
    else if img.id = b.id then { img with position := a.position }
    else img)

/-- `setCoverMutation.onMutate`: move the target to the front of the sorted
cached list and normalize; on `idx <= 0` the cache is left untouched. -/
def setCoverOnMutate (prev : List ExistingImage) (imgId : String) :
    List ExistingImage :=
  match (sortByPosition prev).findIdx? (fun x => x.id = imgId) with
  | none => prev
  | some idx =>
    if idx = 0 then prev
    else
      match (sortByPosition prev)[idx]? with
      | none => prev
      | some target => normalizePositions (target :: (sortByPosition prev).eraseIdx idx)

/-- The snapshot taken by every image mutation's `onMutate`:
`qc.getQueryData(queryKey) ?? []`. -/
def imageCachePrev (cache : Option (List ExistingImage)) : List ExistingImage :=
  cache.getD []

/-- The image mutations' `onError`: `ctx.prev` is always an array (arrays are
truthy in JavaScript, the empty array included), so the cache is always
restored to the snapshot. -/
def imageOnError (ctxPrev : List ExistingImage) : Option (List ExistingImage) :=
  some ctxPrev

/-- A remote operation issued by an image mutation. -/
inductive RemoteOp
  | updatePos (imgId : String) (p : Int)
  | deleteRow (imgId : String)
  deriving DecidableEq, Repr

def applyOp (store : List ExistingImage) : RemoteOp → List ExistingImage
  | .updatePos imgId p => remoteUpdatePosition store imgId p
  | .deleteRow imgId => remoteDeleteRow store imgId

/-- The three optimistic image mutations of the uploader. -/
inductive ImageIntent
  | del (img : ExistingImage)
  | swap (a b : ExistingImage)
  | cover (img : ExistingImage)
  deriving DecidableEq, Repr

/-- The full ordered list of throwing remote operations each mutation's
`mutationFn` issues, as a function of the store it starts from (the delete's
renormalization writes are computed from the fresh read taken after the row
deletion commits). -/
def intentOps (store : List ExistingImage) : ImageIntent → List RemoteOp
  | .del img =>
      RemoteOp.deleteRow img.id ::
        (deleteWrites store img.id).map fun w => RemoteOp.updatePos w.1 w.2
  | .swap a b => (swapWrites a b).map fun w => RemoteOp.updatePos w.1 w.2
  | .cover img => (setCoverWrites store img.id).map fun w => RemoteOp.updatePos w.1 w.2

/-- The optimistic cache update each mutation's `onMutate` applies. -/
def intentOnMutate (prev : List ExistingImage) : ImageIntent → List ExistingImage
  | .del img => deleteOnMutate prev img.id
  | .swap a b => reorderOnMutate prev a b
  | .cover img => setCoverOnMutate prev img.id

/-- The message each mutation's `onError` surfaces:
`err?.message ?? "<operation> failed"`. -/
def intentErrorMsg (msg : Option String) : ImageIntent → String
  | .del _ => msg.getD "Delete failed"
  | .swap _ _ => msg.getD "Reorder failed"
  | .cover _ => msg.getD "Set cover failed"

/-- Outcome of running one image mutation to resolution. -/
structure MutationResult where
  store : List ExistingImage
  cache : Option (List ExistingImage)
  errorMsg : Option String
  issued : List RemoteOp
  succeeded : Bool
  deriving DecidableEq, Repr

/-- One image mutation run end to end: `onMutate` snapshots the cache and
applies the optimistic update, then the remote operations run in order.
`failAt = some k` makes the `k`-th remote operation throw (it is issued but,
as with a network failure, not applied); every `if (e) throw e` in the source
aborts the remaining steps, and `onError` restores the snapshot and surfaces
the error message. No retry is modelled because none is configured. -/
def runImageMutation (store0 : List ExistingImage) (cache0 : Option (List ExistingImage))
    (intent : ImageIntent) (failAt : Option Nat) (msg : Option String) : MutationResult :=
  let prev := imageCachePrev cache0
  let cache1 := some (intentOnMutate prev intent)
  let ops := intentOps store0 intent
  match failAt with
  | none =>
      { store := ops.foldl applyOp store0, cache := cache1, errorMsg := none,
        issued := ops, succeeded := true }
  | some k =>
      if k < ops.length then
        { store := (ops.take k).foldl applyOp store0,
          cache := imageOnError prev,
          errorMsg := some (intentErrorMsg msg intent),
          issued := ops.take (k + 1), succeeded := false }
      else
        { store := ops.foldl applyOp store0, cache := cache1, errorMsg := none,
          issued := ops, succeeded := true }

/-- Per-key mutation state: the cached list and the `ctx.prev` snapshots of the
mutations currently in flight, oldest first. -/
structure KeyMachine where
  cache : List ExistingImage
  pendingSnaps : List (List ExistingImage)
  deriving DecidableEq, Repr

/-- Events on one cache key: a mutation starts (its `onMutate` snapshots the
current cache value and applies the optimistic update), or the oldest in-flight
mutation fails (its `onError` writes its own snapshot back). Nothing in the
source prevents a second mutation on the same key from starting while one is
in flight. -/
inductive KeyEvent
  | start (i : ImageIntent)
  | failFirst
  deriving DecidableEq, Repr

def keyStep (m : KeyMachine) : KeyEvent → KeyMachine
  | .start i =>
      { cache := intentOnMutate m.cache i, pendingSnaps := m.pendingSnaps ++ [m.cache] }
  | .failFirst =>
      match m.pendingSnaps with
      | [] => m
      | p :: rest => { cache := (imageOnError p).getD [], pendingSnaps := rest }

def keyRun (m : KeyMachine) (evs : List KeyEvent) : KeyMachine :=
  evs.foldl keyStep m

/-- `toggleFavorite.onMutate`'s set update: delete the id if present, else add
it (`if (next.has(listingId)) next.delete(...) else next.add(...)`). -/
def toggleSet (s : Finset String) (lid : String) : Finset String :=
  if lid ∈ s then s.erase lid else insert lid s

/-- `toggleFavorite.onMutate`: snapshot `prev := getQueryData(favKey)` (which
may be `undefined`), build `next` from `prev ?? favSet ?? new Set()`, toggle,
write `next` into the cache. Returns the new cache value and `ctx.prev`. -/
def toggleOnMutate (cache favSetView : Option (Finset String)) (lid : String) :
    Option (Finset String) × Option (Finset String) :=
  let base :=
    match cache with
    | some s => s
    | none =>
      match favSetView with
      | some s => s
      | none => ∅
  (some (toggleSet base lid), cache)

/-- `toggleFavorite.onError`: `if (ctx?.prev) qc.setQueryData(favKey, ctx.prev)`.
A `Set` object is truthy even when empty, so the cache is restored exactly when
the snapshot was not `undefined`; with an `undefined` snapshot nothing is
restored. -/
def toggleOnError (cache : Option (Finset String)) (ctxPrev : Option (Finset String)) :
    Option (Finset String) :=
  match ctxPrev with
  | some p => some p
  | none => cache

/-- A remote favorites call. -/
inductive FavCall
  | ins (lid : String)
  | del (lid : String)
  deriving DecidableEq, Repr

/-- `toggleFavorite.mutationFn`'s choice of remote call:
`isFav = favSet?.has(listingId) ?? false`; delete the edge when favorited,
insert it otherwise. -/
def toggleMutationFnCall (favSetView : Option (Finset String)) (lid : String) : FavCall :=
  match favSetView with
  | some s => if lid ∈ s then FavCall.del lid else FavCall.ins lid
  | none => FavCall.ins lid

/-- Two toggles of the same id issued in quick succession, before either
resolves: each computes its remote call from the cache's current view at its
issue time, and each `onMutate` toggles the cache. -/
def rapidDoubleToggle (cache0 : Option (Finset String)) (lid : String) :
    Option (Finset String) × List FavCall :=
  let call1 := toggleMutationFnCall cache0 lid
  let cache1 := (toggleOnMutate cache0 cache0 lid).1
  let call2 := toggleMutationFnCall cache1 lid
  let cache2 := (toggleOnMutate cache1 cache1 lid).1
  (cache2, [call1, call2])

/-- The single-phase position writes of `ListingForm.tsx` /
`updateImagePositions`: each remaining row's final position `idx` is written
directly, one by one, in the displayed order. -/
def formPositionWrites (remaining : List ExistingImage) : List PosWrite :=
  phaseWrites (fun i => (i : Int)) 0 remaining

/-- No two live rows of the parent share a position. -/
def distinctPositions (s : List ExistingImage) : Prop :=
  (s.map fun r => r.position).Nodup

/-- The positions of a parent's rows, as a multiset. -/
def positionsOf (s : List ExistingImage) : Multiset Int :=
  ((s.map fun r => r.position : List Int) : Multiset Int)

/-- The gaplessness invariant: the multiset of positions of the `n` live rows
is exactly `{0, ..., n-1}`. -/
def settled (s : List ExistingImage) : Prop :=
  positionsOf s = (((List.range s.length).map fun i : Nat => (i : Int)) : Multiset Int)

instance : DecidablePred settled := fun s => by
  unfold settled
  infer_instance

instance : DecidablePred distinctPositions := fun s => by
  unfold distinctPositions
  infer_instance

lemma position_eta (r : ExistingImage) :
    ({ r with position := r.position } : ExistingImage) = r := rfl

lemma assignFold_nil (p : Int) (rid : String) : assignFold p rid [] = p := rfl

lemma assignFold_cons (p : Int) (rid : String) (w : PosWrite) (ws : List PosWrite) :
    assignFold p rid (w :: ws) = assignFold (if rid = w.1 then w.2 else p) rid ws := rfl

lemma assignFold_append (p : Int) (rid : String) (ws₁ ws₂ : List PosWrite) :
    assignFold p rid (ws₁ ++ ws₂) = assignFold (assignFold p rid ws₁) rid ws₂ :=
  List.foldl_append _ _ _ _

lemma applyWrites_eq_map (ws : List PosWrite) :
    ∀ s : List ExistingImage,
      applyWrites s ws =
        s.map fun r => { r with position := assignFold r.position r.id ws } := by
  induction ws with
  | nil =>
    intro s
    simp only [applyWrites, List.foldl_nil, assignFold_nil, position_eta]
    exact (List.map_id s).symm
  | cons w ws ih =>
    intro s
    have h1 : applyWrites s (w :: ws) = applyWrites (applyWrite s w) ws := rfl
    rw [h1, ih, applyWrite, remoteUpdatePosition, List.map_map]
    refine List.map_congr_left ?_
    intro r _
    by_cases h : r.id = w.1
    · simp [Function.comp, h, assignFold_cons]
    · simp [Function.comp, h, assignFold_cons]

lemma applyWrites_map_id (s : List ExistingImage) (ws : List PosWrite) :
    (applyWrites s ws).map (fun r => r.id) = s.map fun r => r.id := by
  rw [applyWrites_eq_map, List.map_map]
  rfl

lemma applyWrites_length (s : List ExistingImage) (ws : List PosWrite) :
    (applyWrites s ws).length = s.length := by
  rw [applyWrites_eq_map, List.length_map]

lemma phaseWrites_length (f : Nat → Int) :
    ∀ (rows : List ExistingImage) (k : Nat), (phaseWrites f k rows).length = rows.length := by
  intro rows
  induction rows with
  | nil => intro k; rfl
  | cons r rs ih => intro k; simp [phaseWrites, ih]

lemma phaseWrites_take (f : Nat → Int) :
    ∀ (rows : List ExistingImage) (k m : Nat),
      (phaseWrites f k rows).take m = phaseWrites f k (rows.take m) := by
  intro rows
  induction rows with
  | nil => intro k m; simp [phaseWrites]
  | cons r rs ih =>
    intro k m
    cases m with
    | zero => simp [phaseWrites]
    | succ m => simp [phaseWrites, ih]

lemma assignFold_phase_of_not_mem (f : Nat → Int) (p : Int) (rid : String) :
    ∀ (rows : List ExistingImage) (k : Nat), rid ∉ rows.map (fun r => r.id) →
      assignFold p rid (phaseWrites f k rows) = p := by
  intro rows
  induction rows with
  | nil => intro k _; rfl
  | cons r rs ih =>
    intro k h
    simp only [List.map_cons, List.mem_cons, not_or] at h
    rw [phaseWrites, assignFold_cons, if_neg h.1]
    exact ih (k + 1) h.2

lemma assignFold_phase_get (f : Nat → Int) (p : Int) :
    ∀ (rows : List ExistingImage), (rows.map (fun r => r.id)).Nodup →
      ∀ (k j : Nat) (h : j < rows.length),
        assignFold p (rows[j].id) (phaseWrites f k rows) = f (k + j) := by
  intro rows
  induction rows with
  | nil =>
    intro _ k j h
    exact absurd h (Nat.not_lt_zero j)
  | cons r rs ih =>
    intro hnd k j h
    simp only [List.map_cons, List.nodup_cons] at hnd
    cases j with
    | zero =>
      rw [phaseWrites, List.getElem_cons_zero, assignFold_cons, if_pos rfl,
        assignFold_phase_of_not_mem f (f k) r.id rs (k + 1) hnd.1, Nat.add_zero]
    | succ j =>
      have hj : j < rs.length := Nat.lt_of_succ_lt_succ h
      have hne : rs[j].id ≠ r.id := by
        intro he
        exact hnd.1 (he ▸ List.mem_map_of_mem (fun r => r.id) (rs.getElem_mem hj))
      rw [phaseWrites, List.getElem_cons_succ, assignFold_cons, if_neg hne,
        ih hnd.2 (k + 1) j hj]
      congr 1
      omega

lemma id_index_unique (rows : List ExistingImage)
    (hidr : (rows.map (fun r => r.id)).Nodup)
    (j₁ j₂ : Nat) (h₁ : j₁ < rows.length) (h₂ : j₂ < rows.length)
    (he : rows[j₁].id = rows[j₂].id) : j₁ = j₂ := by
  have hb₁ : j₁ < (rows.map (fun r => r.id)).length := by simpa using h₁
  have hb₂ : j₂ < (rows.map (fun r => r.id)).length := by simpa using h₂
  have hfin : (⟨j₁, hb₁⟩ : Fin (rows.map (fun r => r.id)).length) = ⟨j₂, hb₂⟩ := by
    apply hidr.get_inj_iff.mp
    simp only [List.get_eq_getElem, List.getElem_map]
    exact he
  exact congrArg Fin.val hfin

lemma assignFold_twoPhase_get (rows : List ExistingImage)
    (hidr : (rows.map (fun r => r.id)).Nodup) (p : Int) (j : Nat) (h : j < rows.length) :
    assignFold p (rows[j].id) (twoPhaseWrites rows) = (j : Int) := by
  rw [twoPhaseWrites, assignFold_append,
    assignFold_phase_get _ p rows hidr 0 j h,
    assignFold_phase_get _ _ rows hidr 0 j h]
  simp

lemma renumberFrom_length : ∀ (l : List ExistingImage) (k : Nat),
    (renumberFrom k l).length = l.length := by
  intro l
  induction l with
  | nil => intro k; rfl
  | cons r rs ih => intro k; simp [renumberFrom, ih]

lemma renumberFrom_getElem : ∀ (l : List ExistingImage) (k j : Nat) (h : j < l.length)
    (h2 : j < (renumberFrom k l).length),
    (renumberFrom k l)[j] = { l[j] with position := ((k + j : Nat) : Int) } := by
  intro l
  induction l with
  | nil => intro k j h _; exact absurd h (Nat.not_lt_zero j)
  | cons r rs ih =>
    intro k j h h2
    cases j with
    | zero => simp [renumberFrom]
    | succ j =>
      have hj : j < rs.length := Nat.lt_of_succ_lt_succ h
      have hj2 : j < (renumberFrom (k + 1) rs).length := by
        rw [renumberFrom_length]; exact hj
      simp only [renumberFrom, List.getElem_cons_succ]
      rw [ih (k + 1) j hj hj2]
      have he : k + 1 + j = k + (j + 1) := by omega
      rw [he]

lemma applyWrites_twoPhase_self (rows : List ExistingImage)
    (hidr : (rows.map (fun r => r.id)).Nodup) :
    applyWrites rows (twoPhaseWrites rows) = renumberFrom 0 rows := by
  rw [applyWrites_eq_map]
  apply List.ext_get
  · rw [List.length_map, renumberFrom_length]
  · intro n h1 h2
    simp only [List.get_eq_getElem, List.getElem_map]
    have hn : n < rows.length := by simpa using h1
    have hn2 : n < (renumberFrom 0 rows).length := h2
    rw [renumberFrom_getElem rows 0 n hn hn2,
      assignFold_twoPhase_get rows hidr (rows[n].position) n hn]
    have he : ((0 + n : Nat) : Int) = (n : Int) := by omega
    rw [he]

lemma applyWrites_twoPhase_perm (s rows : List ExistingImage)
    (hperm : rows.Perm s) (hid : (s.map (fun r => r.id)).Nodup) :
    (applyWrites s (twoPhaseWrites rows)).Perm (renumberFrom 0 rows) := by
  have hidr : (rows.map (fun r => r.id)).Nodup := ((hperm.map _).nodup_iff).mpr hid
  have h2 := applyWrites_eq_map (twoPhaseWrites rows) rows
  rw [applyWrites_eq_map, ← applyWrites_twoPhase_self rows hidr, h2]
  exact (hperm.map _).symm

lemma assignFold_twoPhase_take (rows : List ExistingImage)
    (hidr : (rows.map (fun r => r.id)).Nodup) (m : Nat) (p : Int)
    (j : Nat) (h : j < rows.length) :
    assignFold p (rows[j].id) ((twoPhaseWrites rows).take m) =
      if m ≤ rows.length then (if j < m then 1000 + (j : Int) else p)
      else (if j < m - rows.length then (j : Int) else 1000 + (j : Int)) := by
  rw [twoPhaseWrites, List.take_append_eq_append_take, phaseWrites_length,
    phaseWrites_take, phaseWrites_take, assignFold_append]
  by_cases hm : m ≤ rows.length
  · rw [if_pos hm, Nat.sub_eq_zero_of_le hm, List.take_zero]
    have hnil : phaseWrites (fun i => (i : Int)) 0 ([] : List ExistingImage) = [] := rfl
    rw [hnil, assignFold_nil]
    by_cases hj : j < m
    · rw [if_pos hj]
      have hjt : j < (rows.take m).length := by
        rw [List.length_take]; exact lt_min hj h
      have hidt : ((rows.take m).map (fun r => r.id)).Nodup := by
        rw [List.map_take]
        exact (List.take_sublist m _).nodup hidr
      have hgt : (rows.take m)[j] = rows[j] := List.getElem_take rows
      have hc := assignFold_phase_get (fun i => 1000 + (i : Int)) p
        (rows.take m) hidt 0 j hjt
      rw [hgt] at hc
      rw [hc]
      omega
    · rw [if_neg hj]
      apply assignFold_phase_of_not_mem
      intro hmem
      obtain ⟨a, ha, haid⟩ := List.mem_map.mp hmem
      obtain ⟨j₂, hj₂, hga⟩ := List.mem_iff_getElem.mp ha
      have hj₂' := hj₂
      rw [List.length_take] at hj₂'
      have hj₂m : j₂ < m := lt_of_lt_of_le hj₂' (min_le_left _ _)
      have hj₂r : j₂ < rows.length := lt_of_lt_of_le hj₂' (min_le_right _ _)
      have hgt : (rows.take m)[j₂] = rows[j₂] := List.getElem_take rows
      have hids : rows[j₂].id = rows[j].id := by
        rw [← hgt, hga, haid]
      have := id_index_unique rows hidr j₂ j hj₂r h hids
      omega
  · rw [if_neg hm]
    push_neg at hm
    rw [List.take_of_length_le (le_of_lt hm),
      assignFold_phase_get (fun i => 1000 + (i : Int)) p rows hidr 0 j h]
    by_cases hj : j < m - rows.length
    · rw [if_pos hj]
      have hjt : j < (rows.take (m - rows.length)).length := by
        rw [List.length_take]; exact lt_min hj h
      have hidt : ((rows.take (m - rows.length)).map (fun r => r.id)).Nodup := by
        rw [List.map_take]
        exact (List.take_sublist _ _).nodup hidr
      have hgt : (rows.take (m - rows.length))[j] = rows[j] := List.getElem_take rows
      have hc := assignFold_phase_get (fun i => (i : Int)) (1000 + ((0 + j : Nat) : Int))
        (rows.take (m - rows.length)) hidt 0 j hjt
      rw [hgt] at hc
      rw [hc]
      omega
    · rw [if_neg hj]
      rw [assignFold_phase_of_not_mem]
      · omega
      · intro hmem
        obtain ⟨a, ha, haid⟩ := List.mem_map.mp hmem
        obtain ⟨j₂, hj₂, hga⟩ := List.mem_iff_getElem.mp ha
        have hj₂' := hj₂
        rw [List.length_take] at hj₂'
        have hj₂m : j₂ < m - rows.length := lt_of_lt_of_le hj₂' (min_le_left _ _)
        have hj₂r : j₂ < rows.length := lt_of_lt_of_le hj₂' (min_le_right _ _)
        have hgt : (rows.take (m - rows.length))[j₂] = rows[j₂] := List.getElem_take rows
        have hids : rows[j₂].id = rows[j].id := by
          rw [← hgt, hga, haid]
        have := id_index_unique rows hidr j₂ j hj₂r h hids
        omega

lemma twoPhase_take_distinct (s rows : List ExistingImage)
    (hperm : rows.Perm s)
    (hid : (s.map (fun r => r.id)).Nodup)
    (hpos : (s.map (fun r => r.position)).Nodup)
    (hlt : ∀ r ∈ s, r.position < 1000) :
    ∀ m, distinctPositions (applyWrites s ((twoPhaseWrites rows).take m)) := by
  intro m
  have hidr : (rows.map (fun r => r.id)).Nodup := ((hperm.map _).nodup_iff).mpr hid
  have hsnd : s.Nodup := List.Nodup.of_map _ hid
  rw [distinctPositions, applyWrites_eq_map, List.map_map]
  refine List.Nodup.map_on ?_ hsnd
  intro x hx y hy hxy
  obtain ⟨jx, hjx, hgx⟩ := List.mem_iff_getElem.mp ((hperm.mem_iff).mpr hx)
  obtain ⟨jy, hjy, hgy⟩ := List.mem_iff_getElem.mp ((hperm.mem_iff).mpr hy)
  have cx := assignFold_twoPhase_take rows hidr m x.position jx hjx
  have cy := assignFold_twoPhase_take rows hidr m y.position jy hjy
  rw [hgx] at cx
  rw [hgy] at cy
  simp only [Function.comp] at hxy
  rw [cx, cy] at hxy
  have hxyeq : jx = jy → x = y := by
    intro hj
    subst hj
    rw [← hgx, ← hgy]
  have hposinj : x.position = y.position → x = y := fun hp =>
    List.inj_on_of_nodup_map hpos hx hy hp
  have hltx := hlt x hx
  have hlty := hlt y hy
  by_cases hm : m ≤ rows.length
  · rw [if_pos hm, if_pos hm] at hxy
    by_cases h1 : jx < m <;> by_cases h2 : jy < m
    · rw [if_pos h1, if_pos h2] at hxy
      exact hxyeq (by omega)
    · rw [if_pos h1, if_neg h2] at hxy
      exfalso; omega
    · rw [if_neg h1, if_pos h2] at hxy
      exfalso; omega
    · rw [if_neg h1, if_neg h2] at hxy
      exact hposinj hxy
  · rw [if_neg hm, if_neg hm] at hxy
    by_cases h1 : jx < m - rows.length <;> by_cases h2 : jy < m - rows.length
    · rw [if_pos h1, if_pos h2] at hxy
      exact hxyeq (by omega)
    · rw [if_pos h1, if_neg h2] at hxy
      exfalso; omega
    · rw [if_neg h1, if_pos h2] at hxy
      exfalso; omega
    · rw [if_neg h1, if_neg h2] at hxy
      exact hxyeq (by omega)

lemma insertByPos_perm (r : ExistingImage) : ∀ l, (insertByPos r l).Perm (r :: l) := by
  intro l
  induction l with
  | nil => exact List.Perm.refl _
  | cons x xs ih =>
    rw [insertByPos]
    by_cases h : x.position < r.position
    · rw [if_pos h]
      exact (ih.cons x).trans (List.Perm.swap r x xs)
    · rw [if_neg h]

lemma sortByPosition_perm : ∀ l : List ExistingImage, (sortByPosition l).Perm l := by
  intro l
  induction l with
  | nil => exact List.Perm.refl _
  | cons a l ih =>
    have hs : sortByPosition (a :: l) = insertByPos a (sortByPosition l) := rfl
    rw [hs]
    exact (insertByPos_perm a _).trans (ih.cons a)

lemma sortByPosition_of_sorted :
    ∀ l : List ExistingImage, l.Pairwise (fun a b => a.position ≤ b.position) →
      sortByPosition l = l := by
  intro l
  induction l with
  | nil => intro _; rfl
  | cons a l ih =>
    intro h
    rw [List.pairwise_cons] at h
    have hs : sortByPosition (a :: l) = insertByPos a (sortByPosition l) := rfl
    rw [hs, ih h.2]
    cases l with
    | nil => rfl
    | cons x xs =>
      rw [insertByPos, if_neg (not_lt.mpr (h.1 x (List.mem_cons_self x xs)))]

lemma renumberFrom_map_position :
    ∀ (l : List ExistingImage) (k : Nat),
      (renumberFrom k l).map (fun r => r.position) =
        (List.range l.length).map fun i => ((k + i : Nat) : Int) := by
  intro l
  induction l with
  | nil => intro k; rfl
  | cons r rs ih =>
    intro k
    have hr : (renumberFrom k (r :: rs)).map (fun r => r.position) =
        (k : Int) :: (renumberFrom (k + 1) rs).map (fun r => r.position) := rfl
    rw [hr, ih (k + 1)]
    have hlen : (r :: rs).length = rs.length + 1 := rfl
    rw [hlen, List.range_succ_eq_map, List.map_cons, List.map_map]
    have hhead : ((k + 0 : Nat) : Int) = (k : Int) := by norm_num
    have htail : (List.range rs.length).map (fun i => ((k + 1 + i : Nat) : Int)) =
        (List.range rs.length).map ((fun i => ((k + i : Nat) : Int)) ∘ Nat.succ) := by
      refine List.map_congr_left ?_
      intro i _
      simp only [Function.comp]
      congr 1
      omega
    rw [← hhead, htail]

lemma positionsOf_renumberFrom (l : List ExistingImage) :
    positionsOf (renumberFrom 0 l) =
      (((List.range l.length).map fun i : Nat => (i : Int)) : Multiset Int) := by
  rw [positionsOf, renumberFrom_map_position l 0]
  have hmap : (List.range l.length).map (fun i => ((0 + i : Nat) : Int)) =
      (List.range l.length).map fun i : Nat => (i : Int) := by
    refine List.map_congr_left ?_
    intro i _
    norm_num
  rw [hmap]

lemma settled_renumberFrom (l : List ExistingImage) : settled (renumberFrom 0 l) := by
  rw [settled, positionsOf_renumberFrom, renumberFrom_length]

lemma positionsOf_eq_of_perm {s t : List ExistingImage} (h : s.Perm t) :
    positionsOf s = positionsOf t := by
  rw [positionsOf, positionsOf]
  exact Multiset.coe_eq_coe.mpr (h.map _)

lemma settled_of_perm {s t : List ExistingImage} (h : s.Perm t) (ht : settled t) :
    settled s := by
  rw [settled, positionsOf_eq_of_perm h, h.length_eq]
  exact ht

lemma filter_ne_getElem_id :
    ∀ (s : List ExistingImage), (s.map (fun r => r.id)).Nodup →
      ∀ (i : Nat) (h : i < s.length),
        (s.filter fun r => r.id ≠ s[i].id) = s.eraseIdx i := by
  intro s
  induction s with
  | nil => intro _ i h; exact absurd h (Nat.not_lt_zero i)
  | cons a s ih =>
    intro hnd i h
    simp only [List.map_cons, List.nodup_cons] at hnd
    cases i with
    | zero =>
      simp only [List.getElem_cons_zero, List.eraseIdx_cons_zero, List.filter_cons]
      have hc : (decide (a.id ≠ a.id)) = false := by simp
      rw [hc]
      simp only [Bool.false_eq_true, if_false]
      rw [List.filter_eq_self]
      intro r hr
      simp only [decide_eq_true_eq, ne_eq]
      intro he
      exact hnd.1 (he ▸ List.mem_map_of_mem _ hr)
    | succ i =>
      have hj : i < s.length := Nat.lt_of_succ_lt_succ h
      have hgc : (a :: s)[i + 1] = s[i] := List.getElem_cons_succ a s i h
      rw [hgc, List.filter_cons]
      have hne : a.id ≠ s[i].id := by
        intro he
        exact hnd.1 (he ▸ List.mem_map_of_mem _ (s.getElem_mem hj))
      have hc : (decide (a.id ≠ s[i].id)) = true := by simp [hne]
      rw [hc]
      simp only [if_true]
      rw [ih hnd.2 i hj]
      rfl

lemma positionsOf_append (l₁ l₂ : List ExistingImage) :
    positionsOf (l₁ ++ l₂) = positionsOf l₁ + positionsOf l₂ := by
  rw [positionsOf, positionsOf, positionsOf, List.map_append]
  rfl

lemma base_le_foldl_max : ∀ (ps : List Int) (p : Int), p ≤ ps.foldl max p := by
  intro ps
  induction ps with
  | nil => intro p; exact le_refl p
  | cons q ps ih =>
    intro p
    have h1 : (q :: ps).foldl max p = ps.foldl max (max p q) := rfl
    rw [h1]
    exact le_trans (le_max_left p q) (ih (max p q))

lemma mem_le_foldl_max : ∀ (ps : List Int) (p x : Int), x ∈ ps → x ≤ ps.foldl max p := by
  intro ps
  induction ps with
  | nil => intro p x hx; exact absurd hx (List.not_mem_nil x)
  | cons q ps ih =>
    intro p x hx
    have h1 : (q :: ps).foldl max p = ps.foldl max (max p q) := rfl
    rw [h1]
    rcases List.mem_cons.mp hx with rfl | hx
    · exact le_trans (le_max_right p x) (base_le_foldl_max ps (max p x))
    · exact ih (max p q) x hx

lemma foldl_max_mem :
    ∀ (ps : List Int) (p : Int), ps.foldl max p = p ∨ ps.foldl max p ∈ ps := by
  intro ps
  induction ps with
  | nil => intro p; exact Or.inl rfl
  | cons q ps ih =>
    intro p
    have h1 : (q :: ps).foldl max p = ps.foldl max (max p q) := rfl
    rw [h1]
    rcases ih (max p q) with h | h
    · rcases max_choice p q with hm | hm
      · exact Or.inl (by rw [h, hm])
      · refine Or.inr ?_
        rw [h, hm]
        exact List.mem_cons_self q ps
    · exact Or.inr (List.mem_cons_of_mem q h)

lemma uploadStartPos_of_settled (s : List ExistingImage) (hs : settled s) :
    uploadStartPos (sortByPosition s) = (s.length : Int) := by
  cases hmatch : sortByPosition s with
  | nil =>
    have hl : s.length = 0 := by
      have hlen := (sortByPosition_perm s).length_eq
      rw [hmatch] at hlen
      simpa using hlen.symm
    simp [uploadStartPos, hl]
  | cons r rs =>
    have hperm : (r :: rs).Perm s := hmatch ▸ sortByPosition_perm s
    have hpos : (((r :: rs).map fun x => x.position : List Int) : Multiset Int)
        = (((List.range s.length).map fun i : Nat => (i : Int)) : Multiset Int) := by
      have h1 : positionsOf (r :: rs) = positionsOf s := positionsOf_eq_of_perm hperm
      rw [settled] at hs
      rw [positionsOf] at h1
      rw [h1, hs]
    have hmm := foldl_max_mem (rs.map fun x => x.position) r.position
    have hmem : (rs.map fun x => x.position).foldl max r.position ∈
        (r :: rs).map fun x => x.position := by
      rcases hmm with h | h
      · rw [List.map_cons, h]
        exact List.mem_cons_self _ _
      · rw [List.map_cons]
        exact List.mem_cons_of_mem _ h
    have hmem2 : (rs.map fun x => x.position).foldl max r.position ∈
        (List.range s.length).map fun i : Nat => (i : Int) := by
      have h2 := Multiset.mem_coe.mpr hmem
      rw [hpos] at h2
      exact Multiset.mem_coe.mp h2
    obtain ⟨i, hiR, hi⟩ := List.mem_map.mp hmem2
    have hin : i < s.length := List.mem_range.mp hiR
    have hpos0 : 0 < s.length := by
      have hlen := hperm.length_eq
      simp only [List.length_cons] at hlen
      omega
    have hn1 : s.length - 1 < s.length := by omega
    have hmem3 : ((s.length - 1 : Nat) : Int) ∈ (r :: rs).map fun x => x.position := by
      have h3 : ((s.length - 1 : Nat) : Int) ∈
          (List.range s.length).map fun i : Nat => (i : Int) :=
        List.mem_map.mpr ⟨s.length - 1, List.mem_range.mpr hn1, rfl⟩
      have h4 := Multiset.mem_coe.mpr h3
      rw [← hpos] at h4
      exact Multiset.mem_coe.mp h4
    have hle : ((s.length - 1 : Nat) : Int) ≤
        (rs.map fun x => x.position).foldl max r.position := by
      rw [List.map_cons] at hmem3
      rcases List.mem_cons.mp hmem3 with he | he
      · rw [he]
        exact base_le_foldl_max _ _
      · exact mem_le_foldl_max _ _ _ he
    have hup : uploadStartPos (r :: rs) =
        (rs.map fun x => x.position).foldl max r.position + 1 := rfl
    rw [hup]
    omega

lemma insertRowsFrom_length :
    ∀ (l : List ExistingImage) (p : Int), (insertRowsFrom p l).length = l.length := by
  intro l
  induction l with
  | nil => intro p; rfl
  | cons r rs ih => intro p; simp [insertRowsFrom, ih]

lemma insertRowsFrom_map_position :
    ∀ (l : List ExistingImage) (p : Int),
      (insertRowsFrom p l).map (fun r => r.position) =
        (List.range l.length).map fun i : Nat => p + (i : Int) := by
  intro l
  induction l with
  | nil => intro p; rfl
  | cons r rs ih =>
    intro p
    have h1 : (insertRowsFrom p (r :: rs)).map (fun r => r.position) =
        p :: (insertRowsFrom (p + 1) rs).map (fun r => r.position) := rfl
    rw [h1, ih (p + 1)]
    have hlen : (r :: rs).length = rs.length + 1 := rfl
    rw [hlen, List.range_succ_eq_map, List.map_cons, List.map_map]
    have hhead : p = p + ((0 : Nat) : Int) := by norm_num
    have htail : (List.range rs.length).map (fun i : Nat => p + 1 + (i : Int)) =
        (List.range rs.length).map ((fun i : Nat => p + (i : Int)) ∘ Nat.succ) := by
      refine List.map_congr_left ?_
      intro i _
      simp only [Function.comp]
      push_cast
      ring
    exact congrArg₂ List.cons hhead htail

lemma range_cast_split (n k : Nat) :
    ((List.range (n + k)).map fun i : Nat => (i : Int)) =
      ((List.range n).map fun i : Nat => (i : Int)) ++
        ((List.range k).map fun i : Nat => (n : Int) + (i : Int)) := by
  rw [List.range_add, List.map_append, List.map_map]
  congr 1

lemma settled_upload (s : List ExistingImage) (hs : settled s)
    (newItems : List ExistingImage) : settled (uploadMutationFnStore s newItems) := by
  rw [settled, uploadMutationFnStore, positionsOf_append, List.length_append,
    uploadStartPos_of_settled s hs, insertRowsFrom_length]
  have hnew : positionsOf (insertRowsFrom ((s.length : Nat) : Int) newItems) =
      (((List.range newItems.length).map fun i : Nat =>
        ((s.length : Nat) : Int) + (i : Int) : List Int) : Multiset Int) := by
    rw [positionsOf, insertRowsFrom_map_position]
  rw [hnew, range_cast_split s.length newItems.length]
  rw [settled] at hs
  rw [hs]
  rfl

lemma reorder_eq_map (s : List ExistingImage) (a b : ExistingImage) (hab : a.id ≠ b.id) :
    reorderMutationFnStore s a b = s.map fun r =>
      if r.id = a.id then { r with position := b.position }
      else if r.id = b.id then { r with position := a.position }
      else r := by
  have hba : b.id ≠ a.id := fun he => hab he.symm
  rw [reorderMutationFnStore, applyWrites_eq_map]
  refine List.map_congr_left ?_
  intro r _
  by_cases h1 : r.id = a.id
  · have h2 : r.id ≠ b.id := by rw [h1]; exact hab
    simp [swapWrites, assignFold, h1, h2]
  · by_cases h2 : r.id = b.id
    · simp [swapWrites, assignFold, h1, h2, hba]
    · simp [swapWrites, assignFold, h1, h2, position_eta]

lemma reorder_positions (s : List ExistingImage)
    (hid : (s.map (fun r => r.id)).Nodup)
    (a b : ExistingImage) (ha : a ∈ s) (hb : b ∈ s) (hab : a.id ≠ b.id) :
    positionsOf (reorderMutationFnStore s a b) = positionsOf s := by
  classical
  have hsnd : s.Nodup := List.Nodup.of_map _ hid
  have hba : b ≠ a := fun he => hab (congrArg (fun r => r.id) he).symm
  rw [reorder_eq_map s a b hab, positionsOf, positionsOf, List.map_map]
  have hcoe1 : ((s.map ((fun r => r.position) ∘ fun r =>
      if r.id = a.id then { r with position := b.position }
      else if r.id = b.id then { r with position := a.position }
      else r) : List Int) : Multiset Int) =
      Multiset.map (fun r =>
        if r.id = a.id then b.position
        else if r.id = b.id then a.position
        else r.position) (↑s : Multiset ExistingImage) := by
    rw [← Multiset.map_coe]
    refine Multiset.map_congr rfl ?_
    intro x _
    simp only [Function.comp]
    by_cases h1 : x.id = a.id
    · simp [h1]
    · have hba2 : b.id ≠ a.id := fun he => hab he.symm
      by_cases h2 : x.id = b.id <;> simp [h1, h2, hba2]
  have hcoe2 : ((s.map (fun r => r.position) : List Int) : Multiset Int) =
      Multiset.map (fun r => r.position) (↑s : Multiset ExistingImage) := by
    rw [← Multiset.map_coe]
  rw [hcoe1, hcoe2]
  have hmnd : (↑s : Multiset ExistingImage).Nodup := by
    rw [Multiset.coe_nodup]
    exact hsnd
  have hams : a ∈ (↑s : Multiset ExistingImage) := Multiset.mem_coe.mpr ha
  have hbms : b ∈ (↑s : Multiset ExistingImage).erase a :=
    (Multiset.mem_erase_of_ne hba).mpr (Multiset.mem_coe.mpr hb)
  set u := ((↑s : Multiset ExistingImage).erase a).erase b with hu
  have hsplit2 : b ::ₘ u = (↑s : Multiset ExistingImage).erase a :=
    Multiset.cons_erase hbms
  have hsplit1 : a ::ₘ b ::ₘ u = (↑s : Multiset ExistingImage) := by
    rw [hsplit2]
    exact Multiset.cons_erase hams
  have huf : ∀ x ∈ u, x.id ≠ a.id ∧ x.id ≠ b.id := by
    intro x hx
    rw [hu] at hx
    have hxe : x ∈ (↑s : Multiset ExistingImage).erase a := Multiset.mem_of_mem_erase hx
    have hxs : x ∈ s := Multiset.mem_coe.mp (Multiset.mem_of_mem_erase hxe)
    constructor
    · intro he
      have hxa : x = a := List.inj_on_of_nodup_map hid hxs ha he
      have hane : a ∉ (↑s : Multiset ExistingImage).erase a := hmnd.not_mem_erase
      exact hane (hxa ▸ hxe)
    · intro he
      have hxb : x = b := List.inj_on_of_nodup_map hid hxs hb he
      have hend : ((↑s : Multiset ExistingImage).erase a).Nodup := hmnd.erase a
      have hbne : b ∉ ((↑s : Multiset ExistingImage).erase a).erase b :=
        hend.not_mem_erase
      exact hbne (hxb ▸ hx)
  rw [← hsplit1, Multiset.map_cons, Multiset.map_cons, Multiset.map_cons,
    Multiset.map_cons]
  have hga : (if a.id = a.id then b.position
      else if a.id = b.id then a.position else a.position) = b.position := by
    simp
  have hgb : (if b.id = a.id then b.position
      else if b.id = b.id then a.position else b.position) = a.position := by
    have : b.id ≠ a.id := fun he => hab he.symm
    simp [this]
  rw [hga, hgb]
  have hgu : Multiset.map (fun r =>
      if r.id = a.id then b.position
      else if r.id = b.id then a.position
      else r.position) u = Multiset.map (fun r => r.position) u := by
    refine Multiset.map_congr rfl ?_
    intro x hx
    rcases huf x hx with ⟨h1, h2⟩
    simp [h1, h2]
  rw [hgu]
  exact Multiset.cons_swap _ _ _

lemma settled_reorder (s : List ExistingImage) (hs : settled s)
    (hid : (s.map (fun r => r.id)).Nodup)
    (a b : ExistingImage) (ha : a ∈ s) (hb : b ∈ s) (hab : a.id ≠ b.id) :
    settled (reorderMutationFnStore s a b) := by
  rw [settled, reorder_positions s hid a b ha hb hab, reorderMutationFnStore,
    applyWrites_length]
  exact hs

lemma setCoverRows_perm (store : List ExistingImage) (imgId : String)
    (reordered : List ExistingImage)
    (h : setCoverRows store imgId = some reordered) :
    reordered.Perm store := by
  unfold setCoverRows at h
  split at h
  · exact absurd h (by simp)
  · split at h
    · exact absurd h (by simp)
    · split at h
      · exact absurd h (by simp)
      · rename_i x1 idx hfi hz x2 target hget
        have ht : reordered = target :: (fetchSortedRows store).eraseIdx idx :=
          (Option.some.inj h).symm
        obtain ⟨hlt, hgt⟩ := List.getElem?_eq_some_iff.mp hget
        have hsplit : (fetchSortedRows store).take idx ++
            (target :: (fetchSortedRows store).drop (idx + 1)) = fetchSortedRows store := by
          rw [← hgt, List.getElem_cons_drop, List.take_append_drop]
        have hperm1 : (target :: (fetchSortedRows store).eraseIdx idx).Perm
            (fetchSortedRows store) := by
          have h2 : (target :: ((fetchSortedRows store).take idx ++
              (fetchSortedRows store).drop (idx + 1))).Perm
              ((fetchSortedRows store).take idx ++
                target :: (fetchSortedRows store).drop (idx + 1)) :=
            List.perm_middle.symm
          rw [hsplit] at h2
          rw [List.eraseIdx_eq_take_drop_succ]
          exact h2
        rw [ht]
        exact hperm1.trans (sortByPosition_perm store)

lemma settled_delete (store : List ExistingImage)
    (hid : (store.map (fun r => r.id)).Nodup) (imgId : String) :
    settled (deleteMutationFnStore store imgId) := by
  rw [deleteMutationFnStore, deleteWrites]
  have hid' : ((remoteDeleteRow store imgId).map (fun r => r.id)).Nodup := by
    rw [remoteDeleteRow]
    exact ((List.filter_sublist _).map _).nodup hid
  have hperm : (fetchSortedRows (remoteDeleteRow store imgId)).Perm
      (remoteDeleteRow store imgId) := sortByPosition_perm _
  have hfin := applyWrites_twoPhase_perm _ _ hperm hid'
  exact settled_of_perm hfin (settled_renumberFrom _)

lemma settled_setCover (store : List ExistingImage)
    (hid : (store.map (fun r => r.id)).Nodup) (hs : settled store) (imgId : String) :
    settled (setCoverMutationFnStore store imgId) := by
  rw [setCoverMutationFnStore, setCoverWrites]
  cases hsc : setCoverRows store imgId with
  | none => exact hs
  | some reordered =>
    have hperm := setCoverRows_perm store imgId reordered hsc
    have hfin := applyWrites_twoPhase_perm store reordered hperm hid
    exact settled_of_perm hfin (settled_renumberFrom reordered)

lemma ord_pos_getElem (s : List ExistingImage)
    (hord : s.map (fun r => r.position) = (List.range s.length).map fun i : Nat => (i : Int))
    (j : Nat) (h : j < s.length) : s[j].position = (j : Int) := by
  have h1 : ((List.range s.length).map fun i : Nat => (i : Int))[j]? = some (j : Int) := by
    rw [List.getElem?_map, List.getElem?_range h]
    rfl
  rw [← hord] at h1
  rw [List.getElem?_map, List.getElem?_eq_getElem h] at h1
  simpa using h1

lemma ord_pairwise (s : List ExistingImage)
    (hord : s.map (fun r => r.position) = (List.range s.length).map fun i : Nat => (i : Int)) :
    s.Pairwise fun a b => a.position ≤ b.position := by
  rw [List.pairwise_iff_get]
  intro i j hij
  simp only [List.get_eq_getElem]
  rw [ord_pos_getElem s hord i.1 i.2, ord_pos_getElem s hord j.1 j.2]
  exact_mod_cast le_of_lt hij

lemma renumberFrom_of_ord (s : List ExistingImage)
    (hord : s.map (fun r => r.position) = (List.range s.length).map fun i : Nat => (i : Int)) :
    renumberFrom 0 s = s := by
  apply List.ext_get
  · rw [renumberFrom_length]
  · intro n h1 h2
    simp only [List.get_eq_getElem]
    have hn : n < s.length := h2
    rw [renumberFrom_getElem s 0 n hn h1]
    have hp := ord_pos_getElem s hord n hn
    have he : ((0 + n : Nat) : Int) = s[n].position := by rw [hp]; omega
    rw [he, position_eta]

lemma foldl_applyOp_map (ws : List PosWrite) :
    ∀ s, (ws.map fun w => RemoteOp.updatePos w.1 w.2).foldl applyOp s = applyWrites s ws := by
  induction ws with
  | nil => intro s; rfl
  | cons w ws ih => intro s; exact ih _

lemma runImageMutation_del_store (store : List ExistingImage)
    (cache : Option (List ExistingImage)) (img : ExistingImage) (msg : Option String) :
    (runImageMutation store cache (ImageIntent.del img) none msg).store =
      deleteMutationFnStore store img.id := by
  simp only [runImageMutation, intentOps]
  rw [List.foldl_cons]
  exact foldl_applyOp_map _ _

/-- Claim C1, counterexample: the claim quantifies over every delete of the
repository, but the plain uploader variant's `deleteMutation`
(`components/ListingImageUploader.tsx`) issues no renumbering: deleting the
middle item of a settled three-item collection leaves live positions 0 and 2,
which is not the multiset 0..1. -/
theorem C1_counterexample :
    settled [⟨"X", "b", "x", 0⟩, ⟨"Y", "b", "y", 1⟩, ⟨"Z", "b", "z", 2⟩] ∧
    ¬ settled (deleteMutationFnStoreNoRenumber
      [⟨"X", "b", "x", 0⟩, ⟨"Y", "b", "y", 1⟩, ⟨"Z", "b", "z", 2⟩] "Y") := by
  constructor <;> decide

/-- Claim C1, amended: in the optimistic uploader, every core operation
(upload, delete with renormalization, pairwise reorder, promote-to-cover)
started from a settled state with distinct ids leaves the remote store
settled: the multiset of live positions is exactly 0..n-1. -/
theorem C1_gaplessness (store : List ExistingImage)
    (hid : (store.map fun r => r.id).Nodup) (hs : settled store) :
    (∀ newItems, settled (uploadMutationFnStore store newItems)) ∧
    (∀ imgId, settled (deleteMutationFnStore store imgId)) ∧
    (∀ a b, a ∈ store → b ∈ store → a.id ≠ b.id →
      settled (reorderMutationFnStore store a b)) ∧
    (∀ imgId, settled (setCoverMutationFnStore store imgId)) :=
  ⟨fun newItems => settled_upload store hs newItems,
    fun imgId => settled_delete store hid imgId,
    fun a b ha hb hab => settled_reorder store hs hid a b ha hb hab,
    fun imgId => settled_setCover store hid hs imgId⟩

theorem C1_gaplessness_witness :
    ((([⟨"X", "b", "x", 0⟩, ⟨"Y", "b", "y", 1⟩] : List ExistingImage).map
        fun r => r.id).Nodup ∧
      settled [⟨"X", "b", "x", 0⟩, ⟨"Y", "b", "y", 1⟩]) ∧
    settled (deleteMutationFnStore [⟨"X", "b", "x", 0⟩, ⟨"Y", "b", "y", 1⟩] "X") :=
  ⟨⟨by decide, by decide⟩,
    (C1_gaplessness [⟨"X", "b", "x", 0⟩, ⟨"Y", "b", "y", 1⟩]
      (by decide) (by decide)).2.1 "X"⟩

/-- Claim C2: from a state in which the parent's live rows have pairwise
distinct ids and positions, none equal to the sentinel -999999, and rows a and
b (with distinct ids) are live at their stated positions, the pairwise swap
issues exactly the three writes a := sentinel, b := a's old position, a := b's
old position in that order; after each individual write no two live rows share
a position, and after the third write a holds b's old position, b holds a's
old position, and every other row is unchanged. -/
theorem C2_swap_protocol (store : List ExistingImage) (a b : ExistingImage)
    (hid : (store.map fun r => r.id).Nodup)
    (hpos : (store.map fun r => r.position).Nodup)
    (hsent : ∀ r ∈ store, r.position ≠ -999999)
    (ha : a ∈ store) (hb : b ∈ store) (hab : a.id ≠ b.id) :
    swapWrites a b = [(a.id, -999999), (b.id, a.position), (a.id, b.position)] ∧
    (∀ k, distinctPositions (applyWrites store ((swapWrites a b).take k))) ∧
    reorderMutationFnStore store a b = store.map fun r =>
      if r.id = a.id then { r with position := b.position }
      else if r.id = b.id then { r with position := a.position }
      else r := by
  have hsnd : store.Nodup := List.Nodup.of_map _ hid
  have hba : b.id ≠ a.id := fun he => hab he.symm
  refine ⟨rfl, ?_, reorder_eq_map store a b hab⟩
  have key : ∀ (ws : List PosWrite) (v : ExistingImage → Int),
      (∀ r ∈ store, assignFold r.position r.id ws = v r) →
      (∀ x ∈ store, ∀ y ∈ store, v x = v y → x = y) →
      distinctPositions (applyWrites store ws) := by
    intro ws v hv hinj
    rw [distinctPositions, applyWrites_eq_map, List.map_map]
    refine List.Nodup.map_on ?_ hsnd
    intro x hx y hy hxy
    simp only [Function.comp] at hxy
    rw [hv x hx, hv y hy] at hxy
    exact hinj x hx y hy hxy
  intro k
  match k with
  | 0 =>
    have h0 : (swapWrites a b).take 0 = [] := rfl
    rw [h0]
    exact hpos
  | 1 =>
    have ht : (swapWrites a b).take 1 = [(a.id, -999999)] := rfl
    rw [ht]
    refine key _ (fun r => if r.id = a.id then -999999 else r.position) ?_ ?_
    · intro r _
      rfl
    · intro x hx y hy hxy
      by_cases h1 : x.id = a.id <;> by_cases h2 : y.id = a.id
      · exact List.inj_on_of_nodup_map hid hx hy (h1.trans h2.symm)
      · simp only [if_pos h1, if_neg h2] at hxy
        exact absurd hxy.symm (hsent y hy)
      · simp only [if_neg h1, if_pos h2] at hxy
        exact absurd hxy (hsent x hx)
      · simp only [if_neg h1, if_neg h2] at hxy
        exact List.inj_on_of_nodup_map hpos hx hy hxy
  | 2 =>
    have ht : (swapWrites a b).take 2 = [(a.id, -999999), (b.id, a.position)] := rfl
    rw [ht]
    refine key _ (fun r =>
      if r.id = b.id then a.position
      else if r.id = a.id then -999999
      else r.position) ?_ ?_
    · intro r _
      rfl
    · intro x hx y hy hxy
      by_cases h1 : x.id = b.id <;> by_cases h2 : y.id = b.id
      · exact List.inj_on_of_nodup_map hid hx hy (h1.trans h2.symm)
      · simp only [if_pos h1, if_neg h2] at hxy
        by_cases h3 : y.id = a.id
        · simp only [if_pos h3] at hxy
          exact absurd hxy (hsent a ha)
        · simp only [if_neg h3] at hxy
          have hay : a = y := List.inj_on_of_nodup_map hpos ha hy hxy
          exact absurd (congrArg (fun r => r.id) hay).symm h3
      · simp only [if_neg h1, if_pos h2] at hxy
        by_cases h3 : x.id = a.id
        · simp only [if_pos h3] at hxy
          exact absurd hxy.symm (hsent a ha)
        · simp only [if_neg h3] at hxy
          have hxa : x = a := List.inj_on_of_nodup_map hpos hx ha hxy
          exact absurd (congrArg (fun r => r.id) hxa) h3
      · simp only [if_neg h1, if_neg h2] at hxy
        by_cases h3 : x.id = a.id <;> by_cases h4 : y.id = a.id
        · exact List.inj_on_of_nodup_map hid hx hy (h3.trans h4.symm)
        · simp only [if_pos h3, if_neg h4] at hxy
          exact absurd hxy.symm (hsent y hy)
        · simp only [if_neg h3, if_pos h4] at hxy
          exact absurd hxy (hsent x hx)
        · simp only [if_neg h3, if_neg h4] at hxy
          exact List.inj_on_of_nodup_map hpos hx hy hxy
  | (k + 3) =>
    have ht : (swapWrites a b).take (k + 3) = swapWrites a b :=
      List.take_of_length_le (by simp [swapWrites])
    rw [ht]
    refine key _ (fun r =>
      if r.id = a.id then b.position
      else if r.id = b.id then a.position
      else if r.id = a.id then -999999
      else r.position) ?_ ?_
    · intro r _
      rfl
    · intro x hx y hy hxy
      by_cases h1 : x.id = a.id <;> by_cases h2 : y.id = a.id
      · exact List.inj_on_of_nodup_map hid hx hy (h1.trans h2.symm)
      · simp only [if_pos h1, if_neg h2] at hxy
        by_cases h3 : y.id = b.id
        · simp only [if_pos h3] at hxy
          have hband : b = a := List.inj_on_of_nodup_map hpos hb ha hxy
          exact absurd (congrArg (fun r => r.id) hband) hba
        · simp only [if_neg h3] at hxy
          have hby : b = y := List.inj_on_of_nodup_map hpos hb hy hxy
          exact absurd (congrArg (fun r => r.id) hby).symm h3
      · simp only [if_neg h1, if_pos h2] at hxy
        by_cases h3 : x.id = b.id
        · simp only [if_pos h3] at hxy
          have hband : a = b := List.inj_on_of_nodup_map hpos ha hb hxy
          exact absurd (congrArg (fun r => r.id) hband) hab
        · simp only [if_neg h3] at hxy
          have hxb : x = b := List.inj_on_of_nodup_map hpos hx hb hxy
          exact absurd (congrArg (fun r => r.id) hxb) h3
      · simp only [if_neg h1, if_neg h2] at hxy
        by_cases h3 : x.id = b.id <;> by_cases h4 : y.id = b.id
        · exact List.inj_on_of_nodup_map hid hx hy (h3.trans h4.symm)
        · simp only [if_pos h3, if_neg h4] at hxy
          have hay : a = y := List.inj_on_of_nodup_map hpos ha hy hxy
          exact absurd (congrArg (fun r => r.id) hay).symm h2
        · simp only [if_neg h3, if_pos h4] at hxy
          have hxa : x = a := List.inj_on_of_nodup_map hpos hx ha hxy
          exact absurd (congrArg (fun r => r.id) hxa) h1
        · simp only [if_neg h3, if_neg h4] at hxy
          exact List.inj_on_of_nodup_map hpos hx hy hxy

theorem C2_swap_protocol_witness :
    ((([⟨"A", "b", "a", 0⟩, ⟨"B", "b", "p", 1⟩] : List ExistingImage).map
        fun r => r.id).Nodup ∧
      (([⟨"A", "b", "a", 0⟩, ⟨"B", "b", "p", 1⟩] : List ExistingImage).map
        fun r => r.position).Nodup ∧
      (∀ r ∈ ([⟨"A", "b", "a", 0⟩, ⟨"B", "b", "p", 1⟩] : List ExistingImage),
        r.position ≠ -999999) ∧
      (⟨"A", "b", "a", 0⟩ : ExistingImage) ∈
        ([⟨"A", "b", "a", 0⟩, ⟨"B", "b", "p", 1⟩] : List ExistingImage) ∧
      (⟨"B", "b", "p", 1⟩ : ExistingImage) ∈
        ([⟨"A", "b", "a", 0⟩, ⟨"B", "b", "p", 1⟩] : List ExistingImage) ∧
      (⟨"A", "b", "a", 0⟩ : ExistingImage).id ≠ (⟨"B", "b", "p", 1⟩ : ExistingImage).id) ∧
    ∀ k, distinctPositions (applyWrites [⟨"A", "b", "a", 0⟩, ⟨"B", "b", "p", 1⟩]
      ((swapWrites ⟨"A", "b", "a", 0⟩ ⟨"B", "b", "p", 1⟩).take k)) :=
  ⟨⟨by decide, by decide, by decide, by decide, by decide, by decide⟩,
    (C2_swap_protocol [⟨"A", "b", "a", 0⟩, ⟨"B", "b", "p", 1⟩]
      ⟨"A", "b", "a", 0⟩ ⟨"B", "b", "p", 1⟩ (by decide) (by decide) (by decide)
      (by decide) (by decide) (by decide)).2.1⟩

/-- Claim C3, counterexample: the form-save renumbering
(`ListingForm.tsx` / `updateImagePositions`) writes final positions in a
single pass; with live items A at 0 and B at 1 (all positions distinct and
below 1000) and chosen final order [B, A], already the first issued write
leaves A and B both at position 0. -/
theorem C3_counterexample :
    distinctPositions ([⟨"A", "b", "a", 0⟩, ⟨"B", "b", "p", 1⟩] : List ExistingImage) ∧
    (∀ r ∈ ([⟨"A", "b", "a", 0⟩, ⟨"B", "b", "p", 1⟩] : List ExistingImage),
      r.position < 1000) ∧
    ¬ distinctPositions
      (applyWrites [⟨"A", "b", "a", 0⟩, ⟨"B", "b", "p", 1⟩]
        ((formPositionWrites [⟨"B", "b", "p", 1⟩, ⟨"A", "b", "a", 0⟩]).take 1)) := by
  refine ⟨by decide, by decide, by decide⟩

/-- Claim C3, amended: for the optimistic uploader's two two-phase
renormalizations (delete-with-gap-closure and promote-to-cover), starting from
pairwise-distinct live positions all below 1000, no prefix of the issued write
sequence leaves two live rows with equal positions, and the full sequence ends
with positions exactly 0..n-1 assigned in the chosen final order (the fresh
position-ordered read for delete, the target-fronted list for set-cover). The
single-phase form-save renumbering does not have this property. -/
theorem C3_two_phase_renormalization (store : List ExistingImage) (imgId : String)
    (hid : (store.map fun r => r.id).Nodup)
    (hpos : (store.map fun r => r.position).Nodup)
    (hlt : ∀ r ∈ store, r.position < 1000) :
    ((∀ m, distinctPositions
        (applyWrites (remoteDeleteRow store imgId) ((deleteWrites store imgId).take m))) ∧
      (deleteMutationFnStore store imgId).Perm
        (renumberFrom 0 (fetchSortedRows (remoteDeleteRow store imgId)))) ∧
    (∀ reordered, setCoverRows store imgId = some reordered →
      (∀ m, distinctPositions (applyWrites store ((twoPhaseWrites reordered).take m))) ∧
      (setCoverMutationFnStore store imgId).Perm (renumberFrom 0 reordered)) := by
  have hid' : ((remoteDeleteRow store imgId).map fun r => r.id).Nodup := by
    rw [remoteDeleteRow]
    exact ((List.filter_sublist _).map _).nodup hid
  have hpos' : ((remoteDeleteRow store imgId).map fun r => r.position).Nodup := by
    rw [remoteDeleteRow]
    exact ((List.filter_sublist _).map _).nodup hpos
  have hlt' : ∀ r ∈ remoteDeleteRow store imgId, r.position < 1000 := by
    intro r hr
    rw [remoteDeleteRow] at hr
    exact hlt r (List.mem_of_mem_filter hr)
  have hperm1 : (fetchSortedRows (remoteDeleteRow store imgId)).Perm
      (remoteDeleteRow store imgId) := sortByPosition_perm _
  constructor
  · constructor
    · intro m
      rw [deleteWrites]
      exact twoPhase_take_distinct _ _ hperm1 hid' hpos' hlt' m
    · rw [deleteMutationFnStore, deleteWrites]
      exact applyWrites_twoPhase_perm _ _ hperm1 hid'
  · intro reordered hsc
    have hperm2 : reordered.Perm store := setCoverRows_perm store imgId reordered hsc
    constructor
    · intro m
      exact twoPhase_take_distinct store reordered hperm2 hid hpos hlt m
    · rw [setCoverMutationFnStore, setCoverWrites, hsc]
      exact applyWrites_twoPhase_perm store reordered hperm2 hid

theorem C3_two_phase_renormalization_witness :
    ((([⟨"X", "b", "x", 0⟩, ⟨"Y", "b", "y", 1⟩, ⟨"Z", "b", "z", 2⟩] :
        List ExistingImage).map fun r => r.id).Nodup ∧
      (([⟨"X", "b", "x", 0⟩, ⟨"Y", "b", "y", 1⟩, ⟨"Z", "b", "z", 2⟩] :
        List ExistingImage).map fun r => r.position).Nodup ∧
      ∀ r ∈ ([⟨"X", "b", "x", 0⟩, ⟨"Y", "b", "y", 1⟩, ⟨"Z", "b", "z", 2⟩] :
        List ExistingImage), r.position < 1000) ∧
    (deleteMutationFnStore [⟨"X", "b", "x", 0⟩, ⟨"Y", "b", "y", 1⟩, ⟨"Z", "b", "z", 2⟩]
        "Y").Perm
      (renumberFrom 0 (fetchSortedRows (remoteDeleteRow
        [⟨"X", "b", "x", 0⟩, ⟨"Y", "b", "y", 1⟩, ⟨"Z", "b", "z", 2⟩] "Y"))) :=
  ⟨⟨by decide, by decide, by decide⟩,
    (C3_two_phase_renormalization
      [⟨"X", "b", "x", 0⟩, ⟨"Y", "b", "y", 1⟩, ⟨"Z", "b", "z", 2⟩] "Y"
      (by decide) (by decide) (by decide)).1.2⟩

/-- Claim C4, evaluated at the failing input: promoting Z to cover from the
settled list [X at 0, Y at 1, Z at 2]. The optimistic `onMutate` leaves the
cached list completely unchanged (its `normalizePositions` re-sorts by the
rows' existing positions, undoing the move-to-front), contradicting the
claimed cache order [Z, X, Y] and the code's own comment
("optimistic: move chosen image to front"); the remote two-phase writes do
produce Z at 0, X at 1, Y at 2. -/
theorem C4_cover_optimistic_divergence :
    setCoverOnMutate [⟨"X", "b", "x", 0⟩, ⟨"Y", "b", "y", 1⟩, ⟨"Z", "b", "z", 2⟩] "Z" =
      [⟨"X", "b", "x", 0⟩, ⟨"Y", "b", "y", 1⟩, ⟨"Z", "b", "z", 2⟩] ∧
    (setCoverOnMutate [⟨"X", "b", "x", 0⟩, ⟨"Y", "b", "y", 1⟩, ⟨"Z", "b", "z", 2⟩]
        "Z").map (fun r => r.id) ≠ ["Z", "X", "Y"] ∧
    setCoverMutationFnStore
        [⟨"X", "b", "x", 0⟩, ⟨"Y", "b", "y", 1⟩, ⟨"Z", "b", "z", 2⟩] "Z" =
      [⟨"X", "b", "x", 1⟩, ⟨"Y", "b", "y", 2⟩, ⟨"Z", "b", "z", 0⟩] := by
  refine ⟨by decide, by decide, by decide⟩

/-- Claim C5: deleting the item at index i of a parent whose rows are listed in
position order with positions exactly 0..k-1 and distinct ids produces, both in
the optimistic cache update and in the remote delete-plus-renormalization, the
remaining rows in their original relative order at contiguous positions
0..k-2. -/
theorem C5_delete_gap_closure (store : List ExistingImage)
    (hid : (store.map fun r => r.id).Nodup)
    (hord : store.map (fun r => r.position) =
      (List.range store.length).map fun i : Nat => (i : Int))
    (i : Nat) (h : i < store.length) :
    deleteOnMutate store (store[i].id) = renumberFrom 0 (store.eraseIdx i) ∧
    deleteMutationFnStore store (store[i].id) = renumberFrom 0 (store.eraseIdx i) := by
  have hfilter : (store.filter fun r => r.id ≠ store[i].id) = store.eraseIdx i :=
    filter_ne_getElem_id store hid i h
  have hpair := ord_pairwise store hord
  have hpair' : (store.eraseIdx i).Pairwise fun a b => a.position ≤ b.position :=
    List.Pairwise.sublist (List.eraseIdx_sublist store i) hpair
  have hsort : sortByPosition (store.eraseIdx i) = store.eraseIdx i :=
    sortByPosition_of_sorted _ hpair'
  have hid' : ((store.eraseIdx i).map fun r => r.id).Nodup :=
    ((List.eraseIdx_sublist store i).map _).nodup hid
  constructor
  · rw [deleteOnMutate, hfilter, normalizePositions, hsort]
  · rw [deleteMutationFnStore, deleteWrites]
    simp only [remoteDeleteRow, fetchSortedRows]
    rw [hfilter, hsort, applyWrites_twoPhase_self _ hid']

theorem C5_delete_gap_closure_witness :
    ((([⟨"X", "b", "x", 0⟩, ⟨"Y", "b", "y", 1⟩, ⟨"Z", "b", "z", 2⟩] :
        List ExistingImage).map fun r => r.id).Nodup ∧
      ([⟨"X", "b", "x", 0⟩, ⟨"Y", "b", "y", 1⟩, ⟨"Z", "b", "z", 2⟩] :
        List ExistingImage).map (fun r => r.position) =
        (List.range ([⟨"X", "b", "x", 0⟩, ⟨"Y", "b", "y", 1⟩, ⟨"Z", "b", "z", 2⟩] :
          List ExistingImage).length).map (fun i : Nat => (i : Int)) ∧
      1 < ([⟨"X", "b", "x", 0⟩, ⟨"Y", "b", "y", 1⟩, ⟨"Z", "b", "z", 2⟩] :
        List ExistingImage).length) ∧
    deleteOnMutate [⟨"X", "b", "x", 0⟩, ⟨"Y", "b", "y", 1⟩, ⟨"Z", "b", "z", 2⟩]
        "Y" =
      renumberFrom 0 (([⟨"X", "b", "x", 0⟩, ⟨"Y", "b", "y", 1⟩, ⟨"Z", "b", "z", 2⟩] :
        List ExistingImage).eraseIdx 1) :=
  ⟨⟨by decide, by decide, by decide⟩,
    (C5_delete_gap_closure [⟨"X", "b", "x", 0⟩, ⟨"Y", "b", "y", 1⟩, ⟨"Z", "b", "z", 2⟩]
      (by decide) (by decide) 1 (by decide)).1⟩

/-- Claim C6, counterexample: a favorite toggle started while the favorites
cache key holds no value takes an `undefined` snapshot; on failure
`onError`'s truthiness guard skips the restore, so the optimistic value
remains in the cache instead of the pre-mutation state. -/
theorem C6_counterexample :
    toggleOnMutate (none : Option (Finset String)) none "L1" = (some {"L1"}, none) ∧
    toggleOnError (toggleOnMutate (none : Option (Finset String)) none "L1").1
      (toggleOnMutate (none : Option (Finset String)) none "L1").2 ≠ none := by
  constructor <;> decide

/-- Claim C6, amended: for the image mutations (delete, pairwise reorder,
promote-to-cover), a failure at any remote step issues no later step, restores
the cache exactly to the snapshot taken at mutation start, surfaces the
mutation's error message, and does not retry; the favorite toggle restores its
snapshot on failure exactly when the cache held a value at mutation start. -/
theorem C6_failure_rollback :
    (∀ (store0 : List ExistingImage) (cache0 : Option (List ExistingImage))
        (intent : ImageIntent) (k : Nat) (msg : Option String),
      k < (intentOps store0 intent).length →
        (runImageMutation store0 cache0 intent (some k) msg).issued =
          (intentOps store0 intent).take (k + 1) ∧
        (runImageMutation store0 cache0 intent (some k) msg).cache =
          some (imageCachePrev cache0) ∧
        (runImageMutation store0 cache0 intent (some k) msg).errorMsg =
          some (intentErrorMsg msg intent) ∧
        (runImageMutation store0 cache0 intent (some k) msg).succeeded = false) ∧
    (∀ (s : Finset String) (favSetView : Option (Finset String)) (lid : String),
      toggleOnError (toggleOnMutate (some s) favSetView lid).1
        (toggleOnMutate (some s) favSetView lid).2 = some s) := by
  constructor
  · intro store0 cache0 intent k msg hk
    refine ⟨?_, ?_, ?_, ?_⟩ <;> simp [runImageMutation, imageOnError, hk]
  · intro s favSetView lid
    rfl

theorem C6_failure_rollback_witness :
    1 < (intentOps [⟨"A", "b", "a", 0⟩, ⟨"B", "b", "p", 1⟩]
        (ImageIntent.swap ⟨"A", "b", "a", 0⟩ ⟨"B", "b", "p", 1⟩)).length ∧
    (runImageMutation [⟨"A", "b", "a", 0⟩, ⟨"B", "b", "p", 1⟩]
        (some [⟨"A", "b", "a", 0⟩, ⟨"B", "b", "p", 1⟩])
        (ImageIntent.swap ⟨"A", "b", "a", 0⟩ ⟨"B", "b", "p", 1⟩) (some 1) none).cache =
      some [⟨"A", "b", "a", 0⟩, ⟨"B", "b", "p", 1⟩] ∧
    toggleOnError (toggleOnMutate (some (∅ : Finset String)) none "L1").1
      (toggleOnMutate (some (∅ : Finset String)) none "L1").2 = some ∅ :=
  ⟨by decide,
    ((C6_failure_rollback.1 [⟨"A", "b", "a", 0⟩, ⟨"B", "b", "p", 1⟩]
      (some [⟨"A", "b", "a", 0⟩, ⟨"B", "b", "p", 1⟩])
      (ImageIntent.swap ⟨"A", "b", "a", 0⟩ ⟨"B", "b", "p", 1⟩) 1 none
      (by decide)).2.1).trans rfl,
    C6_failure_rollback.2 ∅ none "L1"⟩

/-- Claim C7, counterexample: nothing serializes two mutations on the same
image key. After a pairwise swap's `onMutate` and then a set-cover's
`onMutate` (second started while the first is unresolved), two pre-mutation
snapshots are pending simultaneously; when both then fail, the second rollback
restores the swap's speculative state, not the only confirmed state. -/
theorem C7_counterexample :
    (keyRun ⟨[⟨"A", "b", "a", 0⟩, ⟨"B", "b", "p", 1⟩], []⟩
        [KeyEvent.start (ImageIntent.swap ⟨"A", "b", "a", 0⟩ ⟨"B", "b", "p", 1⟩),
          KeyEvent.start (ImageIntent.cover ⟨"A", "b", "a", 0⟩)]).pendingSnaps.length =
      2 ∧
    (keyRun ⟨[⟨"A", "b", "a", 0⟩, ⟨"B", "b", "p", 1⟩], []⟩
        [KeyEvent.start (ImageIntent.swap ⟨"A", "b", "a", 0⟩ ⟨"B", "b", "p", 1⟩),
          KeyEvent.start (ImageIntent.cover ⟨"A", "b", "a", 0⟩),
          KeyEvent.failFirst, KeyEvent.failFirst]).cache =
      [⟨"B", "b", "p", 0⟩, ⟨"A", "b", "a", 1⟩] ∧
    ([⟨"B", "b", "p", 0⟩, ⟨"A", "b", "a", 1⟩] : List ExistingImage) ≠
      [⟨"A", "b", "a", 0⟩, ⟨"B", "b", "p", 1⟩] := by
  refine ⟨by decide, by decide, by decide⟩

/-- Claim C7, amended: each mutation's `onMutate` snapshots the cache
unconditionally, so serialization holds only when mutations on a key do not
overlap: a mutation that starts from a resolved state and fails rolls the
cache back exactly to the immediately-preceding confirmed value, and so does
a second such non-overlapping mutation. -/
theorem C7_serial_rollback (c : List ExistingImage) (i j : ImageIntent) :
    keyRun ⟨c, []⟩ [KeyEvent.start i, KeyEvent.failFirst] = ⟨c, []⟩ ∧
    keyRun ⟨c, []⟩ [KeyEvent.start i, KeyEvent.failFirst,
      KeyEvent.start j, KeyEvent.failFirst] = ⟨c, []⟩ := by
  constructor <;> rfl

/-- Claim C8: two rapid toggles of a not-yet-favorited id, each computing its
remote call from the cache's current view, issue exactly an insert followed by
a delete and leave the cache not favorited (back at the starting set). -/
theorem C8_rapid_double_toggle (s0 : Finset String) (lid : String) (h : lid ∉ s0) :
    rapidDoubleToggle (some s0) lid = (some s0, [FavCall.ins lid, FavCall.del lid]) ∧
    lid ∉ ((rapidDoubleToggle (some s0) lid).1.getD ∅) := by
  have h1 : rapidDoubleToggle (some s0) lid =
      (some s0, [FavCall.ins lid, FavCall.del lid]) := by
    simp [rapidDoubleToggle, toggleOnMutate, toggleMutationFnCall, toggleSet, h,
      Finset.erase_insert h]
  refine ⟨h1, ?_⟩
  rw [h1]
  simpa using h

theorem C8_rapid_double_toggle_witness :
    ("L1" ∉ (∅ : Finset String)) ∧
    rapidDoubleToggle (some (∅ : Finset String)) "L1" =
      (some ∅, [FavCall.ins "L1", FavCall.del "L1"]) :=
  ⟨by decide, (C8_rapid_double_toggle ∅ "L1" (by decide)).1⟩

/-- Claim C9, counterexample: deleting an id absent from the cached list is
not always a cache no-op: when the cached positions have a gap (A at 0, B at
2), the optimistic delete of the absent id C renormalizes the cache to A at 0,
B at 1, changing it. -/
theorem C9_counterexample :
    ("C" ∉ ([⟨"A", "b", "a", 0⟩, ⟨"B", "b", "p", 2⟩] : List ExistingImage).map
      fun r => r.id) ∧
    deleteOnMutate [⟨"A", "b", "a", 0⟩, ⟨"B", "b", "p", 2⟩] "C" ≠
      [⟨"A", "b", "a", 0⟩, ⟨"B", "b", "p", 2⟩] := by
  constructor <;> decide

/-- Claim C9, amended: deleting an id whose remote row is already gone
completes as success (the remote delete matches zero rows without error and
the renormalization runs to completion), and when the id is also absent from
the cached list and the list is settled in position order, both the cache
value and the stored rows are unchanged. -/
theorem C9_idempotent_delete (store : List ExistingImage)
    (hid : (store.map fun r => r.id).Nodup)
    (hord : store.map (fun r => r.position) =
      (List.range store.length).map fun i : Nat => (i : Int))
    (imgId : String) (habs : imgId ∉ store.map fun r => r.id) :
    deleteOnMutate store imgId = store ∧
    deleteMutationFnStore store imgId = store ∧
    (∀ (img : ExistingImage) (cache : Option (List ExistingImage)) (msg : Option String),
      img.id = imgId →
        (runImageMutation store cache (ImageIntent.del img) none msg).succeeded = true ∧
        (runImageMutation store cache (ImageIntent.del img) none msg).store = store) := by
  have hfilter : (store.filter fun r => r.id ≠ imgId) = store := by
    rw [List.filter_eq_self]
    intro r hr
    simp only [decide_eq_true_eq, ne_eq]
    intro he
    exact habs (he ▸ List.mem_map_of_mem _ hr)
  have hsort : sortByPosition store = store :=
    sortByPosition_of_sorted _ (ord_pairwise store hord)
  have hren : renumberFrom 0 store = store := renumberFrom_of_ord store hord
  have hcache : deleteOnMutate store imgId = store := by
    rw [deleteOnMutate, hfilter, normalizePositions, hsort, hren]
  have hstore : deleteMutationFnStore store imgId = store := by
    rw [deleteMutationFnStore, deleteWrites]
    simp only [remoteDeleteRow, fetchSortedRows]
    rw [hfilter, hsort, applyWrites_twoPhase_self _ hid, hren]
  refine ⟨hcache, hstore, ?_⟩
  intro img cache msg himg
  refine ⟨rfl, ?_⟩
  rw [runImageMutation_del_store, himg, hstore]

theorem C9_idempotent_delete_witness :
    ((([⟨"X", "b", "x", 0⟩, ⟨"Y", "b", "y", 1⟩] : List ExistingImage).map
        fun r => r.id).Nodup ∧
      ([⟨"X", "b", "x", 0⟩, ⟨"Y", "b", "y", 1⟩] : List ExistingImage).map
          (fun r => r.position) =
        (List.range ([⟨"X", "b", "x", 0⟩, ⟨"Y", "b", "y", 1⟩] :
          List ExistingImage).length).map (fun i : Nat => (i : Int)) ∧
      ("Q" ∉ ([⟨"X", "b", "x", 0⟩, ⟨"Y", "b", "y", 1⟩] : List ExistingImage).map
        fun r => r.id)) ∧
    deleteOnMutate [⟨"X", "b", "x", 0⟩, ⟨"Y", "b", "y", 1⟩] "Q" =
      [⟨"X", "b", "x", 0⟩, ⟨"Y", "b", "y", 1⟩] :=
  ⟨⟨by decide, by decide, by decide⟩,
    (C9_idempotent_delete [⟨"X", "b", "x", 0⟩, ⟨"Y", "b", "y", 1⟩]
      (by decide) (by decide) "Q" (by decide)).1⟩

/-- Claim C10: when the set-cover target is already first in the
position-sorted list (index 0) or is not found (index -1, `idx <= 0`), the
mutation issues no remote position write, leaves the stored rows untouched,
and the optimistic `onMutate` leaves the cached list unchanged. -/
theorem C10_cover_noop (store : List ExistingImage) (imgId : String)
    (hidx : (fetchSortedRows store).findIdx? (fun r => r.id = imgId) = none ∨
      (fetchSortedRows store).findIdx? (fun r => r.id = imgId) = some 0) :
    setCoverWrites store imgId = [] ∧
    setCoverMutationFnStore store imgId = store ∧
    setCoverOnMutate store imgId = store := by
  have hrows : setCoverRows store imgId = none := by
    unfold setCoverRows
    rcases hidx with h | h
    · rw [h]
    · rw [h]
      simp
  have hwrites : setCoverWrites store imgId = [] := by
    unfold setCoverWrites
    rw [hrows]
  refine ⟨hwrites, ?_, ?_⟩
  · rw [setCoverMutationFnStore, hwrites]
    rfl
  · have h2 : (sortByPosition store).findIdx? (fun x => x.id = imgId) = none ∨
        (sortByPosition store).findIdx? (fun x => x.id = imgId) = some 0 := hidx
    unfold setCoverOnMutate
    rcases h2 with h | h
    · rw [h]
    · rw [h]
      simp

theorem C10_cover_noop_witness :
    (fetchSortedRows [⟨"X", "b", "x", 0⟩, ⟨"Y", "b", "y", 1⟩]).findIdx?
        (fun r => r.id = "X") = some 0 ∧
    setCoverOnMutate [⟨"X", "b", "x", 0⟩, ⟨"Y", "b", "y", 1⟩] "X" =
      [⟨"X", "b", "x", 0⟩, ⟨"Y", "b", "y", 1⟩] :=
  ⟨by decide,
    (C10_cover_noop [⟨"X", "b", "x", 0⟩, ⟨"Y", "b", "y", 1⟩] "X"
      (Or.inr (by decide))).2.2⟩

end NexusCars
